import Mathlib

/-!
# Verification of the document text-replacement service

Shallow embedding of the replacement logic of `Python api/app.py`:
the four format replacers (PDF, CSV, XML, XPT), the extension dispatcher
of `upload_file`, and the text-field handling at the upload boundary.
Text is modelled as `List Char`; Python's `str.replace` is modelled by
`replaceAll` below.
-/

namespace App


/-- Fuel-driven worker for `replaceAll`.  Python's `str.replace` scans left
to right and substitutes each leftmost non-overlapping occurrence of `old`
by `new`.  The fuel argument is only a termination device: fuel equal to the
length of the scanned list always suffices (see `replaceAllFuel_irrel`). -/
def replaceAllFuel (old new : List Char) : Nat → List Char → List Char
  | 0, s => s
  | _ + 1, [] => []
  | n + 1, c :: rest =>
    if old ≠ [] ∧ old <+: (c :: rest) then
      new ++ replaceAllFuel old new n ((c :: rest).drop old.length)
    else
      c :: replaceAllFuel old new n rest

/-- Model of Python `s.replace(old, new)` for a non-empty pattern `old`:
replaces every leftmost non-overlapping occurrence of `old` in `s` by `new`.
(Call sites in `app.py` only reach this with a non-empty `old`, because the
upload boundary rejects an empty search text at line 122.) -/

def replaceAll (old new s : List Char) : List Char :=
  replaceAllFuel old new s.length s

def joinSep (sep : List Char) : List (List Char) → List Char
  | [] => []
  | [x] => x
  | x :: y :: tl => x ++ sep ++ joinSep sep (y :: tl)


inductive Cell where
  | str (s : List Char)
  | num (q : Rat)
  | null
deriving DecidableEq

/-- The lambda applied elementwise by both `replace_text_in_csv` (line 66)
and `replace_text_in_xpt` (line 97):
`lambda x: x.replace(old_text, new_text) if isinstance(x, str) else x`. -/

def cellReplace (old new : List Char) : Cell → Cell
  | .str s => .str (replaceAll old new s)
  | c => c

/-- A parsed CSV file as `pandas.read_csv(..., dtype=str)` sees it: a header
row of column names and a grid of cells (all text, no type inference). -/

structure CsvDoc where
  header : List (List Char)
  rows : List (List Cell)
deriving DecidableEq

/-- Document-level model of `replace_text_in_csv` (lines 63-70): the frame
is mapped elementwise with `cellReplace`; `applymap` does not touch the
header (column names). -/

def replace_text_in_csv (old new : List Char) (d : CsvDoc) : CsvDoc :=
  ⟨d.header, d.rows.map (List.map (cellReplace old new))⟩

/-- A parsed XPT (SAS transport) file as `pyreadstat.read_xport` sees it:
the transport-format version of the source file, the table name, the
variable metadata (column labels), and the record set. -/

structure XptDoc where
  version : Nat
  table_name : List Char
  column_labels : List (Option (List Char))
  rows : List (List Cell)
deriving DecidableEq

/-- Document-level model of `replace_text_in_xpt` (lines 94-101).  The data
frame is mapped elementwise with `cellReplace`; the output is written by
`pyreadstat.write_xport(df, output_path, file_format_version=8,
table_name=meta.table_name)`: the version is the hard-coded constant `8`
(not `meta`'s version), the table name is carried over from `meta`, and no
`column_labels` argument is passed, so every variable is written without a
label (modelled as `none` for each column). -/

def replace_text_in_xpt (old new : List Char) (d : XptDoc) : XptDoc :=
  ⟨8, d.table_name,
   d.column_labels.map (fun _ => (none : Option (List Char))),
   d.rows.map (List.map (cellReplace old new))⟩

/-!
## XML model

An `xml.etree.ElementTree` element: tag, attribute list (insertion order),
optional text and tail, and the list of child elements.  The element/forest
pair is a mutual inductive so that all functions below are structurally
recursive. -/


mutual
inductive XmlElem : Type where
  | mk (tag : List Char) (attrib : List (List Char × List Char))
       (text : Option (List Char)) (tail : Option (List Char))
       (children : XmlForest)

inductive XmlForest : Type where
  | nil
  | cons (e : XmlElem) (rest : XmlForest)
end


/-- The text/tail update of `replace_in_element` (lines 78-81):
`if elem.text and old_text in elem.text: elem.text = elem.text.replace(...)`.
Python truthiness: `None` and the empty string are falsy, so the guard also
requires the field to be non-empty. -/
def replaceTextField (old new : List Char) : Option (List Char) → Option (List Char)
  | none => none
  | some t => if t ≠ [] ∧ old <:+: t then some (replaceAll old new t) else some t

/-- The attribute update of `replace_in_element` (lines 82-84):
`for k, v in elem.attrib.items(): if old_text in v: elem.attrib[k] = v.replace(...)`. -/

def replaceAttribs (old new : List Char)
    (attrib : List (List Char × List Char)) : List (List Char × List Char) :=
  attrib.map (fun kv => if old <:+: kv.2 then (kv.1, replaceAll old new kv.2) else kv)


mutual
/-- Model of the recursive helper `replace_in_element` of
`replace_text_in_xml` (lines 77-86): update the element's text, tail and
attribute values, then recurse into the children in document order. -/
def replace_in_element (old new : List Char) : XmlElem → XmlElem
  | .mk tag attrib text tail children =>
    .mk tag (replaceAttribs old new attrib)
      (replaceTextField old new text) (replaceTextField old new tail)
      (replace_in_forest old new children)

/-- The `for child in elem: replace_in_element(child)` loop (lines 85-86). -/
def replace_in_forest (old new : List Char) : XmlForest → XmlForest
  | .nil => .nil
  | .cons e rest => .cons (replace_in_element old new e) (replace_in_forest old new rest)
end


mutual
/-- The element transform as §4.4 of the spec words it: for every element,
replace all occurrences of the search string in its text, its tail and each
attribute value, recurse into children, and never change the tag. -/
def xmlSpecReplaceElem (old new : List Char) : XmlElem → XmlElem
  | .mk tag attrib text tail children =>
    .mk tag (attrib.map (fun kv => (kv.1, replaceAll old new kv.2)))
      (text.map (replaceAll old new)) (tail.map (replaceAll old new))
      (xmlSpecReplaceForest old new children)

def xmlSpecReplaceForest (old new : List Char) : XmlForest → XmlForest
  | .nil => .nil
  | .cons e rest =>
    .cons (xmlSpecReplaceElem old new e) (xmlSpecReplaceForest old new rest)
end


mutual
/-- Preorder (document-order) list of tag names of an element tree. -/
def tagsElem : XmlElem → List (List Char)
  | .mk tag _ _ _ children => tag :: tagsForest children

def tagsForest : XmlForest → List (List Char)
  | .nil => []
  | .cons e rest => tagsElem e ++ tagsForest rest
end


/-!
## PDF font-size model

`page.get_text("dict")['blocks']` (line 30) is captured before the
redactions are applied; it is a list of blocks, each block a list of lines,
each line a list of spans with a text and a font size.  Image blocks carry
no `"lines"` key and appear here as blocks with an empty line list. -/

structure Span where
  text : List Char
  size : Rat
deriving DecidableEq


/-- A match rectangle returned by `page.search_for(old_text)`. -/
structure Rect where
  x0 : Rat
  y0 : Rat
  x1 : Rat
  y1 : Rat
deriving DecidableEq

/-- The innermost loop of lines 40-43: scan the spans of one line and stop
at the first span whose text contains `old` (`if old_text in span["text"]:
... break`). -/

def findSpanInLine (old : List Char) : List Span → Option Span
  | [] => none
  | sp :: tl => if old <:+: sp.text then some sp else findSpanInLine old tl

/-- The middle loop of lines 39-46 with its `for ... else continue / break`:
stop at the first line that produced a span. -/

def findSpanInBlock (old : List Char) : List (List Span) → Option Span
  | [] => none
  | ln :: tl =>
    match findSpanInLine old ln with
    | some sp => some sp
    | none => findSpanInBlock old tl

/-- The outer loop of lines 38-49: stop at the first block that produced a
span. -/

def findSpanInBlocks (old : List Char) : List (List (List Span)) → Option Span
  | [] => none
  | b :: tl =>
    match findSpanInBlock old b with
    | some sp => some sp
    | none => findSpanInBlocks old tl

/-- Lines 37-49 of `replace_text_in_pdf`: `original_fontsize = 12`, then the
triple loop overwrites it with the size of the first span on the page whose
text contains the search string, if any. -/

def originalFontsize (old : List Char) (blocks : List (List (List Span))) : Rat :=
  match findSpanInBlocks old blocks with
  | some sp => sp.size
  | none => 12

/-- The font sizes `replace_text_in_pdf` uses for the insertions on one
page: the per-rectangle loop of lines 36-56 recomputes `original_fontsize`
from the same pre-redaction snapshot for every match rectangle. -/

def insertionFontsizes (old : List Char) (blocks : List (List (List Span)))
    (rects : List Rect) : List Rat :=
  rects.map (fun _ => originalFontsize old blocks)

/-- The font size as §4.2 of the spec words it: the size of the first text
span anywhere on the page, in block/line/span order, whose text contains
the search string, defaulting to 12pt if none exists. -/

def specFirstSize (old : List Char) (blocks : List (List (List Span))) : Rat :=
  match (blocks.flatten.flatten).find? (fun sp => decide (old <:+: sp.text)) with
  | some sp => sp.size
  | none => 12


inductive FileFormat where
  | pdf
  | csv
  | xml
  | xpt
deriving DecidableEq


/-- The extension string each replacer's path rewrite targets. -/
def extToken : FileFormat → List Char
  | .pdf => ".pdf".data
  | .csv => ".csv".data
  | .xml => ".xml".data
  | .xpt => ".xpt".data


/-- Line 58: `input_pdf_path.replace('.pdf', '_modified.pdf')`. -/
def pdf_output_path (p : List Char) : List Char :=
  replaceAll ".pdf".data "_modified.pdf".data p


/-- Line 68: `input_csv_path.replace('.csv', '_modified.csv')`. -/
def csv_output_path (p : List Char) : List Char :=
  replaceAll ".csv".data "_modified.csv".data p


/-- Line 90: `input_xml_path.replace('.xml', '_modified.xml')`. -/
def xml_output_path (p : List Char) : List Char :=
  replaceAll ".xml".data "_modified.xml".data p


/-- Line 99: `input_xpt_path.replace('.xpt', '_modified.xpt')`. -/
def xpt_output_path (p : List Char) : List Char :=
  replaceAll ".xpt".data "_modified.xpt".data p


def outputPathOf : FileFormat → List Char → List Char
  | .pdf => pdf_output_path
  | .csv => csv_output_path
  | .xml => xml_output_path
  | .xpt => xpt_output_path


/-- The basename of a path: the part after the last `'/'` separator. -/
def afterLastSep (p : List Char) : List Char :=
  ((p.reverse).takeWhile (fun c => c ≠ '/')).reverse

/-- Model of `os.path.splitext(p)[1]` (posix rules): the extension starts at
the last dot of the basename, unless every character before that dot is
itself a dot (leading dots do not start an extension, so `.bashrc` has
none). -/

def splitextExt (p : List Char) : List Char :=
  let base := afterLastSep p
  let rest := base.dropWhile (fun c => c = '.')
  if rest.any (fun c => c = '.') then
    '.' :: ((rest.reverse).takeWhile (fun c => c ≠ '.')).reverse
  else
    []


/-- `os.path.splitext(filename)[1].lower()` (line 132). -/
def lowerExt (filename : List Char) : List Char :=
  (splitextExt filename).map Char.toLower

/-- Outcome of the dispatch: either one replacer runs on the saved upload,
or the request is rejected with an error message, the saved input file is
removed (line 143) and no output file exists. -/

inductive DispatchResult where
  | run (fmt : FileFormat)
  | rejected (message : List Char) (savedInputRemoved : Bool)
deriving DecidableEq


/-- The `if/elif` chain of lines 134-144 of `upload_file`. -/
def dispatchByExtension (filename : List Char) : DispatchResult :=
  let ext := lowerExt filename
  if ext = ".pdf".data then .run .pdf
  else if ext = ".csv".data then .run .csv
  else if ext = ".xml".data then .run .xml
  else if ext = ".xpt".data then .run .xpt
  else .rejected ("Unsupported file type: ".data ++ ext) true

/-!
## Upload text fields (`upload_file`, lines 116-123)

`old_text = request.form.get('old_text', '').strip()` and likewise for
`new_text`; then `if not old_text: return ... 'Text to find is required'`. -/


/-- The whitespace characters Python's `str.strip` removes (ASCII part). -/
def isPySpace (c : Char) : Bool :=
  c = ' ' || c = '\t' || c = '\n' || c = '\x0d' || c = '\x0b' || c = '\x0c'


/-- Model of Python `s.strip()`: drop whitespace from both ends. -/
def pyStrip (s : List Char) : List Char :=
  ((s.dropWhile isPySpace).reverse.dropWhile isPySpace).reverse


inductive UploadCheck where
  | rejected (message : List Char)
  | accepted (old_text new_text : List Char)
deriving DecidableEq

/-- Lines 116-123: strip both form fields, reject when the stripped search
text is empty (Python falsiness of the empty string). -/

def uploadTexts (oldRaw newRaw : List Char) : UploadCheck :=
  let o := pyStrip oldRaw
  let n := pyStrip newRaw
  if o = [] then .rejected "Text to find is required".data
  else .accepted o n


inductive Document where
  | csv (d : CsvDoc)
  | xml (root : XmlElem)
  | xpt (d : XptDoc)


/-- The content transformation of the matching replacer. -/
def processDocument (old new : List Char) : Document → Document
  | .csv d => .csv (replace_text_in_csv old new d)
  | .xml root => .xml (replace_in_element old new root)
  | .xpt d => .xpt (replace_text_in_xpt old new d)

/-- What re-serializing the parsed document (with the code's write calls)
does to its content, with no replacement at all. -/

def writeNormalize : Document → Document
  | .csv d => .csv d
  | .xml root => .xml root
  | .xpt d => .xpt ⟨8, d.table_name,
      d.column_labels.map (fun _ => (none : Option (List Char))), d.rows⟩


def cellOccurs (old : List Char) : Cell → Bool
  | .str s => decide (old <:+: s)
  | _ => false


def optOccurs (old : List Char) : Option (List Char) → Bool
  | some t => decide (old <:+: t)
  | none => false


def csvOccurs (old : List Char) (d : CsvDoc) : Bool :=
  d.header.any (fun h => decide (old <:+: h)) ||
  d.rows.any (fun r => r.any (cellOccurs old))


mutual
def elemOccurs (old : List Char) : XmlElem → Bool
  | .mk tag attrib text tail children =>
    decide (old <:+: tag) ||
    attrib.any (fun kv => decide (old <:+: kv.1) || decide (old <:+: kv.2)) ||
    optOccurs old text || optOccurs old tail || forestOccurs old children

def forestOccurs (old : List Char) : XmlForest → Bool
  | .nil => false
  | .cons e rest => elemOccurs old e || forestOccurs old rest
end


def xptOccurs (old : List Char) (d : XptDoc) : Bool :=
  decide (old <:+: d.table_name) ||
  d.column_labels.any (optOccurs old) ||
  d.rows.any (fun r => r.any (cellOccurs old))


/-- Whether the search string occurs anywhere in the document's content. -/
def occursInDocument (old : List Char) : Document → Bool
  | .csv d => csvOccurs old d
  | .xml root => elemOccurs old root
  | .xpt d => xptOccurs old d


-- ## Lemmas and theorems


theorem replaceAllFuel_irrel (old new : List Char) :
    ∀ n m s, s.length ≤ n → s.length ≤ m →
      replaceAllFuel old new n s = replaceAllFuel old new m s := by
  intro n
  induction n with
  | zero =>
    intro m s hn _
    have hs : s = [] := List.length_eq_zero.mp (Nat.le_zero.mp hn)
    subst hs
    cases m <;> rfl
  | succ n ih =>
    intro m s hn hm
    cases s with
    | nil => cases m <;> rfl
    | cons c rest =>
      cases m with
      | zero => simp at hm
      | succ m =>
        by_cases h : old ≠ [] ∧ old <+: (c :: rest)
        · have hop : 0 < old.length := List.length_pos.mpr h.1
          have hdl : ((c :: rest).drop old.length).length ≤ rest.length := by
            simp only [List.length_drop, List.length_cons]
            omega
          simp only [replaceAllFuel, if_pos h]
          have h1 : ((c :: rest).drop old.length).length ≤ n := by
            have : rest.length ≤ n := by simpa using Nat.lt_succ_iff.mp hn
            omega
          have h2 : ((c :: rest).drop old.length).length ≤ m := by
            have : rest.length ≤ m := by simpa using Nat.lt_succ_iff.mp hm
            omega
          rw [ih _ _ h1 h2]
        · simp only [replaceAllFuel, if_neg h]
          have h1 : rest.length ≤ n := by simpa using Nat.lt_succ_iff.mp hn
          have h2 : rest.length ≤ m := by simpa using Nat.lt_succ_iff.mp hm
          rw [ih _ _ h1 h2]


theorem replaceAll_nil (old new : List Char) : replaceAll old new [] = [] := rfl


theorem replaceAll_cons_pos (old new : List Char) (c : Char) (rest : List Char)
    (h1 : old ≠ []) (h2 : old <+: (c :: rest)) :
    replaceAll old new (c :: rest) =
      new ++ replaceAll old new ((c :: rest).drop old.length) := by
  have hop : 0 < old.length := List.length_pos.mpr h1
  show replaceAllFuel old new (rest.length + 1) (c :: rest) = _
  rw [replaceAllFuel, if_pos ⟨h1, h2⟩]
  congr 1
  apply replaceAllFuel_irrel
  · simp only [List.length_drop, List.length_cons]; omega
  · exact le_rfl


theorem replaceAll_cons_neg (old new : List Char) (c : Char) (rest : List Char)
    (h : ¬ (old ≠ [] ∧ old <+: (c :: rest))) :
    replaceAll old new (c :: rest) = c :: replaceAll old new rest := by
  show replaceAllFuel old new (rest.length + 1) (c :: rest) = _
  rw [replaceAllFuel, if_neg h]
  rfl


/-- A list in which the pattern does not occur is left unchanged. -/
theorem replaceAll_no_occurrence (old new : List Char) :
    ∀ s, ¬ old <:+: s → replaceAll old new s = s := by
  intro s
  induction s with
  | nil => intro _; rfl
  | cons c rest ih =>
    intro h
    have hnp : ¬ (old ≠ [] ∧ old <+: (c :: rest)) := by
      rintro ⟨_, hp⟩
      exact h hp.isInfix
    rw [replaceAll_cons_neg old new c rest hnp]
    have : ¬ old <:+: rest := fun hi => h (List.infix_cons hi)
    rw [ih this]


/-- A list exactly equal to the (non-empty) pattern is replaced in full. -/
theorem replaceAll_self (old new : List Char) (h : old ≠ []) :
    replaceAll old new old = new := by
  cases old with
  | nil => exact absurd rfl h
  | cons c rest =>
    rw [replaceAll_cons_pos (c :: rest) new c rest h List.prefix_rfl]
    simp [replaceAll_nil]

/-- `joinSep sep [s0, s1, ..., sk]` is `s0 ++ sep ++ s1 ++ sep ++ ... ++ sk`.
Used to state how `replaceAll` decomposes its input at the replacement
sites. -/


theorem joinSep_cons_of_ne_nil (sep x : List Char) (tl : List (List Char))
    (h : tl ≠ []) : joinSep sep (x :: tl) = x ++ sep ++ joinSep sep tl := by
  cases tl with
  | nil => exact absurd rfl h
  | cons y tl => rfl

/-- `replaceAll old new` rewrites each leftmost non-overlapping occurrence of
`old`: the input splits into occurrence-free segments separated by `old`, and
the output is the same segments separated by `new`. -/

theorem replaceAll_decomp (old new : List Char) (hold : old ≠ []) :
    ∀ s : List Char, ∃ segs : List (List Char), segs ≠ [] ∧
      (∀ seg ∈ segs, ¬ old <:+: seg) ∧
      s = joinSep old segs ∧ replaceAll old new s = joinSep new segs := by
  have hop : 0 < old.length := List.length_pos.mpr hold
  have main : ∀ n (s : List Char), s.length ≤ n → ∃ segs : List (List Char),
      segs ≠ [] ∧ (∀ seg ∈ segs, ¬ old <:+: seg) ∧
      s = joinSep old segs ∧ replaceAll old new s = joinSep new segs := by
    intro n
    induction n with
    | zero =>
      intro s hs
      have : s = [] := List.length_eq_zero.mp (Nat.le_zero.mp hs)
      subst this
      refine ⟨[[]], by simp, ?_, rfl, by rw [replaceAll_nil]; rfl⟩
      intro seg hseg
      simp only [List.mem_singleton] at hseg
      subst hseg
      intro hinf
      exact hold (List.eq_nil_of_infix_nil hinf)
    | succ n ih =>
      intro s hs
      cases s with
      | nil =>
        refine ⟨[[]], by simp, ?_, rfl, by rw [replaceAll_nil]; rfl⟩
        intro seg hseg
        simp only [List.mem_singleton] at hseg
        subst hseg
        intro hinf
        exact hold (List.eq_nil_of_infix_nil hinf)
      | cons c rest =>
        by_cases hpre : old <+: (c :: rest)
        · obtain ⟨t, ht⟩ := hpre
          have hdrop : (c :: rest).drop old.length = t := by
            rw [← ht, List.drop_left]
          have hlen : t.length ≤ n := by
            have h1 : (c :: rest).length = old.length + t.length := by
              rw [← ht, List.length_append]
            simp only [List.length_cons] at h1 hs
            omega
          obtain ⟨segs, hne, hfree, hjoin, hrep⟩ := ih t hlen
          refine ⟨[] :: segs, by simp, ?_, ?_, ?_⟩
          · intro seg hseg
            rcases List.mem_cons.mp hseg with h | h
            · subst h
              intro hinf
              exact hold (List.eq_nil_of_infix_nil hinf)
            · exact hfree seg h
          · rw [joinSep_cons_of_ne_nil old [] segs hne, ← hjoin, ← ht]
            simp
          · rw [replaceAll_cons_pos old new c rest hold ⟨t, ht⟩, hdrop, hrep,
              joinSep_cons_of_ne_nil new [] segs hne]
            simp
        · have hneg : ¬ (old ≠ [] ∧ old <+: (c :: rest)) := fun h => hpre h.2
          have hlen : rest.length ≤ n := by
            simp only [List.length_cons] at hs
            omega
          obtain ⟨segs, hne, hfree, hjoin, hrep⟩ := ih rest hlen
          cases segs with
          | nil => exact absurd rfl hne
          | cons s1 tl =>
            have hs1_pref : s1 <+: rest := by
              cases tl with
              | nil =>
                simp only [joinSep] at hjoin
                exact hjoin ▸ List.prefix_rfl
              | cons y tl' =>
                rw [joinSep_cons_of_ne_nil old s1 (y :: tl') (by simp)] at hjoin
                have hr : rest = s1 ++ (old ++ joinSep old (y :: tl')) := by
                  rw [hjoin, List.append_assoc]
                exact hr ▸ List.prefix_append s1 _
            refine ⟨(c :: s1) :: tl, by simp, ?_, ?_, ?_⟩
            · intro seg hseg
              rcases List.mem_cons.mp hseg with h | h
              · subst h
                intro hinf
                rcases List.infix_cons_iff.mp hinf with h | h
                · have : old <+: (c :: rest) :=
                    h.trans (List.cons_prefix_cons.mpr ⟨rfl, hs1_pref⟩)
                  exact hpre this
                · exact hfree s1 (List.mem_cons_self s1 tl) h
              · exact hfree seg (List.mem_cons_of_mem s1 h)
            · cases tl with
              | nil =>
                simp only [joinSep] at hjoin ⊢
                rw [hjoin]
              | cons y tl' =>
                rw [joinSep_cons_of_ne_nil old (c :: s1) (y :: tl') (by simp),
                  List.cons_append, List.cons_append]
                rw [joinSep_cons_of_ne_nil old s1 (y :: tl') (by simp)] at hjoin
                rw [hjoin]
            · rw [replaceAll_cons_neg old new c rest hneg, hrep]
              cases tl with
              | nil => simp only [joinSep]
              | cons y tl' =>
                rw [joinSep_cons_of_ne_nil new (c :: s1) (y :: tl') (by simp),
                  joinSep_cons_of_ne_nil new s1 (y :: tl') (by simp),
                  List.cons_append, List.cons_append]
  exact fun s => main s.length s le_rfl


theorem joinSep_length_mono (sep sep' : List Char)
    (h : sep.length ≤ sep'.length) :
    ∀ segs : List (List Char),
      (joinSep sep segs).length ≤ (joinSep sep' segs).length := by
  intro segs
  induction segs with
  | nil => simp [joinSep]
  | cons x tl ih =>
    cases tl with
    | nil => simp [joinSep]
    | cons y tl' =>
      rw [joinSep_cons_of_ne_nil sep x (y :: tl') (by simp),
        joinSep_cons_of_ne_nil sep' x (y :: tl') (by simp)]
      simp only [List.length_append]
      omega


theorem joinSep_length_strict (sep sep' : List Char)
    (h : sep.length < sep'.length) :
    ∀ segs : List (List Char), 2 ≤ segs.length →
      (joinSep sep segs).length < (joinSep sep' segs).length := by
  intro segs hsegs
  cases segs with
  | nil => simp at hsegs
  | cons x tl =>
    cases tl with
    | nil => simp at hsegs
    | cons y tl' =>
      rw [joinSep_cons_of_ne_nil sep x (y :: tl') (by simp),
        joinSep_cons_of_ne_nil sep' x (y :: tl') (by simp)]
      have := joinSep_length_mono sep sep' (Nat.le_of_lt h) (y :: tl')
      simp only [List.length_append]
      omega

/-- If the pattern occurs and the replacement is strictly longer, the result
is strictly longer than the input (each occurrence grows the output). -/

theorem replaceAll_length_lt (old new s : List Char) (hold : old ≠ [])
    (hlen : old.length < new.length) (hocc : old <:+: s) :
    s.length < (replaceAll old new s).length := by
  obtain ⟨segs, hne, hfree, hjoin, hrep⟩ := replaceAll_decomp old new hold s
  have hsegs2 : 2 ≤ segs.length := by
    cases segs with
    | nil => exact absurd rfl hne
    | cons x tl =>
      cases tl with
      | nil =>
        exfalso
        simp only [joinSep] at hjoin
        exact hfree x (List.mem_cons_self x []) (hjoin ▸ hocc)
      | cons y tl' => simp
  rw [hrep]
  calc s.length = (joinSep old segs).length := by rw [← hjoin]
    _ < (joinSep new segs).length := joinSep_length_strict old new hlen segs hsegs2


theorem replaceAll_ne_of_occurrence (old new s : List Char) (hold : old ≠ [])
    (hlen : old.length < new.length) (hocc : old <:+: s) :
    replaceAll old new s ≠ s := by
  intro h
  have := replaceAll_length_lt old new s hold hlen hocc
  rw [h] at this
  omega

/-!
## Data cells (CSV grid and XPT record set)

`pandas.read_csv(..., dtype=str)` yields a data frame whose entries are
Python strings or the float NaN (for empty/missing fields);
`pyreadstat.read_xport` yields entries that are strings or floats.  A cell
is therefore a string, a number, or a missing value. -/


theorem replaceTextField_eq_map (old new : List Char)
    (t : Option (List Char)) :
    replaceTextField old new t = t.map (replaceAll old new) := by
  cases t with
  | none => rfl
  | some s =>
    have hm : (some s).map (replaceAll old new) = some (replaceAll old new s) := rfl
    rw [hm]
    simp only [replaceTextField]
    by_cases h : s ≠ [] ∧ old <:+: s
    · rw [if_pos h]
    · rw [if_neg h]
      push_neg at h
      by_cases hnil : s = []
      · subst hnil
        rw [replaceAll_nil]
      · rw [replaceAll_no_occurrence old new s (h hnil)]


theorem replaceAttribs_eq_map (old new : List Char)
    (attrib : List (List Char × List Char)) :
    replaceAttribs old new attrib =
      attrib.map (fun kv => (kv.1, replaceAll old new kv.2)) := by
  unfold replaceAttribs
  apply List.map_congr_left
  intro kv _
  by_cases h : old <:+: kv.2
  · rw [if_pos h]
  · rw [if_neg h, replaceAll_no_occurrence old new kv.2 h]


mutual
theorem replace_in_element_eq_spec (old new : List Char) :
    ∀ e : XmlElem, replace_in_element old new e = xmlSpecReplaceElem old new e
  | .mk tag attrib text tail children => by
    simp only [replace_in_element, xmlSpecReplaceElem,
      replaceTextField_eq_map, replaceAttribs_eq_map,
      replace_in_forest_eq_spec old new children]

theorem replace_in_forest_eq_spec (old new : List Char) :
    ∀ f : XmlForest, replace_in_forest old new f = xmlSpecReplaceForest old new f
  | .nil => rfl
  | .cons e rest => by
    simp only [replace_in_forest, xmlSpecReplaceForest,
      replace_in_element_eq_spec old new e,
      replace_in_forest_eq_spec old new rest]
end


mutual
theorem tagsElem_replace (old new : List Char) :
    ∀ e : XmlElem, tagsElem (replace_in_element old new e) = tagsElem e
  | .mk tag attrib text tail children => by
    simp only [replace_in_element, tagsElem,
      tagsForest_replace old new children]

theorem tagsForest_replace (old new : List Char) :
    ∀ f : XmlForest, tagsForest (replace_in_forest old new f) = tagsForest f
  | .nil => rfl
  | .cons e rest => by
    simp only [replace_in_forest, tagsForest,
      tagsElem_replace old new e, tagsForest_replace old new rest]
end


theorem findSpanInLine_eq_find (old : List Char) (spans : List Span) :
    findSpanInLine old spans = spans.find? (fun sp => decide (old <:+: sp.text)) := by
  induction spans with
  | nil => rfl
  | cons sp tl ih =>
    by_cases h : old <:+: sp.text
    · simp [findSpanInLine, List.find?, h]
    · simp [findSpanInLine, List.find?, h, ih]


theorem findSpanInBlock_eq_find (old : List Char) (lines : List (List Span)) :
    findSpanInBlock old lines =
      lines.flatten.find? (fun sp => decide (old <:+: sp.text)) := by
  induction lines with
  | nil => rfl
  | cons ln tl ih =>
    simp only [findSpanInBlock, findSpanInLine_eq_find, List.flatten_cons,
      List.find?_append, ih]
    cases ln.find? (fun sp => decide (old <:+: sp.text)) with
    | none => rfl
    | some sp => rfl


theorem findSpanInBlocks_eq_find (old : List Char)
    (blocks : List (List (List Span))) :
    findSpanInBlocks old blocks =
      blocks.flatten.flatten.find? (fun sp => decide (old <:+: sp.text)) := by
  induction blocks with
  | nil => rfl
  | cons b tl ih =>
    simp only [findSpanInBlocks, findSpanInBlock_eq_find, List.flatten_cons,
      List.flatten_append, List.find?_append, ih]
    cases b.flatten.find? (fun sp => decide (old <:+: sp.text)) with
    | none => rfl
    | some sp => rfl


theorem originalFontsize_eq_spec (old : List Char)
    (blocks : List (List (List Span))) :
    originalFontsize old blocks = specFirstSize old blocks := by
  unfold originalFontsize specFirstSize
  rw [findSpanInBlocks_eq_find]

/-!
## Output paths

Each replacer computes its output path with Python `str.replace`, e.g.
`output_path = input_csv_path.replace('.csv', '_modified.csv')` (lines 58,
68, 90, 99).  `str.replace` substitutes every occurrence of the pattern,
case-sensitively. -/


theorem outputPathOf_eq_replaceAll (f : FileFormat) (p : List Char) :
    outputPathOf f p = replaceAll (extToken f) ("_modified".data ++ extToken f) p := by
  cases f <;> rfl

/-!
## Extension dispatch (`upload_file`, lines 132-144)

`ext = os.path.splitext(filename)[1].lower()`, then an `if/elif` chain over
`.pdf`, `.csv`, `.xml`, `.xpt`; any other extension removes the saved input
file and returns a 400 error whose message is
`'Unsupported file type: '` followed by the extension. -/


theorem dropWhile_head_not (p : Char → Bool) :
    ∀ (l : List Char) (c : Char), (l.dropWhile p).head? = some c → p c = false := by
  intro l
  induction l with
  | nil => intro c h; simp [List.dropWhile] at h
  | cons a tl ih =>
    intro c h
    by_cases hpa : p a
    · rw [List.dropWhile_cons_of_pos hpa] at h
      exact ih c h
    · rw [List.dropWhile_cons_of_neg hpa] at h
      simp only [List.head?_cons, Option.some.injEq] at h
      subst h
      exact Bool.eq_false_iff.mpr hpa


theorem getLast?_dropWhile (p : Char → Bool) :
    ∀ l : List Char, l.dropWhile p ≠ [] → (l.dropWhile p).getLast? = l.getLast? := by
  intro l
  induction l with
  | nil => intro h; exact absurd rfl h
  | cons a tl ih =>
    intro h
    by_cases hpa : p a
    · rw [List.dropWhile_cons_of_pos hpa] at h ⊢
      have htl : tl ≠ [] := by
        intro he
        subst he
        simp [List.dropWhile] at h
      rw [ih h]
      cases tl with
      | nil => exact absurd rfl htl
      | cons b tl' => rw [List.getLast?_cons_cons]
    · rw [List.dropWhile_cons_of_neg hpa]


theorem pyStrip_head_not_space (s : List Char) (c : Char)
    (h : (pyStrip s).head? = some c) : isPySpace c = false := by
  unfold pyStrip at h
  rw [List.head?_reverse] at h
  set A := s.dropWhile isPySpace with hA
  have hne : A.reverse.dropWhile isPySpace ≠ [] := by
    intro he
    rw [he] at h
    simp at h
  rw [getLast?_dropWhile isPySpace A.reverse hne, List.getLast?_reverse] at h
  exact dropWhile_head_not isPySpace s c h


theorem pyStrip_getLast_not_space (s : List Char) (c : Char)
    (h : (pyStrip s).getLast? = some c) : isPySpace c = false := by
  unfold pyStrip at h
  rw [List.getLast?_reverse] at h
  exact dropWhile_head_not isPySpace _ c h


theorem pyStrip_of_all_space (s : List Char)
    (h : ∀ c ∈ s, isPySpace c = true) : pyStrip s = [] := by
  unfold pyStrip
  have h1 : s.dropWhile isPySpace = [] := List.dropWhile_eq_nil_iff.mpr h
  rw [h1]
  rfl

/-!
## Documents and the no-occurrence round trip (§8, first bullet)

A `Document` is a parsed CSV grid, XML tree, or XPT table.
`processDocument` is the content transformation the matching replacer
applies; `writeNormalize` is what merely re-serializing the parsed document
does to its content (identity for CSV and XML, which round-trip at this
level; for XPT the writer forces version 8 and drops the column labels, as
in `replace_text_in_xpt`).  `occursInDocument` decides whether the search
string occurs anywhere in the document. -/


theorem map_eq_self_of_mem {α : Type} (f : α → α) (l : List α)
    (h : ∀ a ∈ l, f a = a) : l.map f = l :=
  (List.map_congr_left h).trans (List.map_id' l)


theorem cellReplace_of_not_occurs (old new : List Char) (c : Cell)
    (h : cellOccurs old c = false) : cellReplace old new c = c := by
  cases c with
  | str s =>
    simp only [cellOccurs, decide_eq_false_iff_not] at h
    simp only [cellReplace, replaceAll_no_occurrence old new s h]
  | num q => rfl
  | null => rfl


theorem rows_replace_of_not_occurs (old new : List Char)
    (rows : List (List Cell))
    (h : rows.any (fun r => r.any (cellOccurs old)) = false) :
    rows.map (List.map (cellReplace old new)) = rows := by
  apply map_eq_self_of_mem
  intro r hr
  apply map_eq_self_of_mem
  intro c hc
  simp only [List.any_eq_false] at h
  have h2 : r.any (cellOccurs old) = false := Bool.eq_false_iff.mpr (h r hr)
  simp only [List.any_eq_false] at h2
  exact cellReplace_of_not_occurs old new c (Bool.eq_false_iff.mpr (h2 c hc))


theorem replaceTextField_of_not_occurs (old new : List Char)
    (t : Option (List Char)) (h : optOccurs old t = false) :
    replaceTextField old new t = t := by
  cases t with
  | none => rfl
  | some s =>
    simp only [optOccurs, decide_eq_false_iff_not] at h
    simp only [replaceTextField]
    rw [if_neg]
    intro hc
    exact h hc.2


mutual
theorem elem_replace_of_not_occurs (old new : List Char) :
    ∀ e : XmlElem, elemOccurs old e = false → replace_in_element old new e = e
  | .mk tag attrib text tail children => by
    intro h
    simp only [elemOccurs, Bool.or_eq_false_iff] at h
    obtain ⟨⟨⟨⟨_, hattr⟩, htext⟩, htail⟩, hchild⟩ := h
    simp only [replace_in_element]
    rw [replaceTextField_of_not_occurs old new text htext,
      replaceTextField_of_not_occurs old new tail htail,
      forest_replace_of_not_occurs old new children hchild]
    congr 1
    unfold replaceAttribs
    apply map_eq_self_of_mem
    intro kv hkv
    rw [if_neg]
    simp only [List.any_eq_false] at hattr
    have h2 := hattr kv hkv
    simp only [Bool.or_eq_true, decide_eq_true_eq, not_or] at h2
    exact h2.2

theorem forest_replace_of_not_occurs (old new : List Char) :
    ∀ f : XmlForest, forestOccurs old f = false → replace_in_forest old new f = f
  | .nil => fun _ => rfl
  | .cons e rest => by
    intro h
    simp only [forestOccurs, Bool.or_eq_false_iff] at h
    simp only [replace_in_forest]
    rw [elem_replace_of_not_occurs old new e h.1,
      forest_replace_of_not_occurs old new rest h.2]
end

/-!
## Claims
-/

/-- Claim C1, counterexample: for an XPT input whose transport-format
version is 5, the version written to the output (always 8) differs from the
version read from the input, so the output version does not equal the input
version. -/
theorem c1_counterexample :
    (replace_text_in_xpt "a".data "b".data
      (XptDoc.mk 5 "DM".data [] [])).version ≠
    (XptDoc.mk 5 "DM".data [] []).version := by
  decide

/-- Claim C1 (amended): the tabular-export replacer re-serializes the
replaced table with the hard-coded transport-format version 8, regardless
of the version read from the source metadata, and with the same table name
as the source metadata; whenever the source version is not 8, the output
version differs from it. -/
theorem c1_xpt_version_and_table_name (old new : List Char) (d : XptDoc) :
    (replace_text_in_xpt old new d).version = 8 ∧
    (replace_text_in_xpt old new d).table_name = d.table_name ∧
    (d.version ≠ 8 → (replace_text_in_xpt old new d).version ≠ d.version) := by
  refine ⟨rfl, rfl, ?_⟩
  intro h
  show (8 : Nat) ≠ d.version
  omega

/-- Witness for C1 at a concrete version-5 document. -/
theorem c1_witness :
    (XptDoc.mk 5 "AE".data [] []).version ≠ 8 ∧
    (replace_text_in_xpt "a".data "b".data
      (XptDoc.mk 5 "AE".data [] [])).version ≠ (XptDoc.mk 5 "AE".data [] []).version := by
  refine ⟨by decide, ?_⟩
  exact (c1_xpt_version_and_table_name "a".data "b".data
    (XptDoc.mk 5 "AE".data [] [])).2.2 (by decide)

/-- Claim C2, counterexample: for an input with a non-empty column label,
the output's variable metadata differs from the input's: the writer is not
given the labels, so they are dropped. -/
theorem c2_counterexample :
    (replace_text_in_xpt "a".data "b".data
      (XptDoc.mk 8 "DM".data [some "Age in years".data] [])).column_labels ≠
    (XptDoc.mk 8 "DM".data [some "Age in years".data] []).column_labels := by
  decide

/-- Claim C2 (amended): the replacement itself touches only data values
(string cells are substring-replaced, numeric and missing cells are
unchanged), but the output's variable metadata does not equal the input's:
the column labels are dropped on write (every label becomes empty), so any
input with a non-empty label has its metadata changed. -/
theorem c2_xpt_labels_dropped (old new : List Char) (d : XptDoc) :
    (replace_text_in_xpt old new d).rows =
      d.rows.map (List.map (cellReplace old new)) ∧
    (∀ q : Rat, cellReplace old new (Cell.num q) = Cell.num q) ∧
    cellReplace old new Cell.null = Cell.null ∧
    (replace_text_in_xpt old new d).column_labels =
      d.column_labels.map (fun _ => (none : Option (List Char))) ∧
    ((∃ l ∈ d.column_labels, l ≠ none) →
      (replace_text_in_xpt old new d).column_labels ≠ d.column_labels) := by
  refine ⟨rfl, fun q => rfl, rfl, rfl, ?_⟩
  rintro ⟨l, hl, hlne⟩ heq
  have heq' : d.column_labels.map (fun _ => (none : Option (List Char))) =
      d.column_labels := heq
  have hl' : l ∈ d.column_labels.map (fun _ => (none : Option (List Char))) :=
    heq'.symm ▸ hl
  obtain ⟨a, _, ha⟩ := List.mem_map.mp hl'
  exact hlne ha.symm

/-- Witness for C2 at a concrete labelled document. -/
theorem c2_witness :
    (some "Age".data ∈ (XptDoc.mk 8 "VS".data [some "Age".data] []).column_labels) ∧
    (replace_text_in_xpt "a".data "b".data
      (XptDoc.mk 8 "VS".data [some "Age".data] [])).column_labels ≠
      (XptDoc.mk 8 "VS".data [some "Age".data] []).column_labels := by
  refine ⟨by decide, ?_⟩
  exact (c2_xpt_labels_dropped "a".data "b".data
    (XptDoc.mk 8 "VS".data [some "Age".data] [])).2.2.2.2
    ⟨some "Age".data, by decide, by decide⟩

/-- Claim C3, counterexample: a numeric-looking cell is NOT left unchanged:
`pandas.read_csv(..., dtype=str)` loads it as the string "123", and the
elementwise replacement of "2" by "X" turns it into "1X3". -/
theorem c3_counterexample :
    replace_text_in_csv "2".data "X".data
      (CsvDoc.mk ["n".data] [[Cell.str "123".data]]) ≠
    CsvDoc.mk ["n".data] [[Cell.str "123".data]] := by
  decide

/-- Claim C3 (amended): the CSV replacer leaves every null cell unchanged,
but under `dtype=str` every non-null cell — numeric-looking or not — is a
string and undergoes literal substring replacement; a string cell that does
not contain the search text is unchanged. -/
theorem c3_csv_cells (old new : List Char) (d : CsvDoc) :
    (replace_text_in_csv old new d).header = d.header ∧
    (replace_text_in_csv old new d).rows =
      d.rows.map (List.map (cellReplace old new)) ∧
    cellReplace old new Cell.null = Cell.null ∧
    (∀ s, cellReplace old new (Cell.str s) = Cell.str (replaceAll old new s)) ∧
    (∀ s, ¬ old <:+: s → cellReplace old new (Cell.str s) = Cell.str s) := by
  refine ⟨rfl, rfl, rfl, fun s => rfl, fun s h => ?_⟩
  simp only [cellReplace, replaceAll_no_occurrence old new s h]

/-- Witness for C3: a textual cell without an occurrence stays unchanged. -/
theorem c3_witness :
    ¬ ("zz".data <:+: "abc".data) ∧
    cellReplace "zz".data "Q".data (Cell.str "abc".data) = Cell.str "abc".data := by
  refine ⟨by decide, ?_⟩
  exact (c3_csv_cells "zz".data "Q".data (CsvDoc.mk [] [])).2.2.2.2
    "abc".data (by decide)

/-- Claim C4, counterexample: Python `str.replace` rewrites EVERY occurrence
of the extension string, not only the final one: on the input path
`uploads/u_a.csv.csv` the claim predicts `uploads/u_a.csv_modified.csv`, but
the code produces `uploads/u_a_modified.csv_modified.csv`. -/
theorem c4_counterexample :
    csv_output_path "uploads/u_a.csv.csv".data ≠
      "uploads/u_a.csv_modified.csv".data ∧
    csv_output_path "uploads/u_a.csv.csv".data =
      "uploads/u_a_modified.csv_modified.csv".data := by
  refine ⟨by decide, by decide⟩

/-- Claim C4 (amended): for every replacer, the output path is the input
path with EVERY occurrence of the (lowercase) extension string replaced by
`_modified.<ext>`: the path splits into extension-free segments separated by
the extension token, and the output path is the same segments separated by
`_modified.<ext>`.  Whenever the path contains the extension token at least
once, the output path differs from the input path, so the replacement is
written to a new file and the original is untouched. -/
theorem c4_output_paths (f : FileFormat) (p : List Char) :
    (∃ segs : List (List Char), segs ≠ [] ∧
      (∀ seg ∈ segs, ¬ extToken f <:+: seg) ∧
      p = joinSep (extToken f) segs ∧
      outputPathOf f p = joinSep ("_modified".data ++ extToken f) segs) ∧
    (extToken f <:+: p → outputPathOf f p ≠ p) := by
  have hne : extToken f ≠ [] := by cases f <;> decide
  have hlen : (extToken f).length < ("_modified".data ++ extToken f).length := by
    cases f <;> decide
  constructor
  · obtain ⟨segs, h1, h2, h3, h4⟩ :=
      replaceAll_decomp (extToken f) ("_modified".data ++ extToken f) hne p
    exact ⟨segs, h1, h2, h3, by rw [outputPathOf_eq_replaceAll]; exact h4⟩
  · intro hocc
    rw [outputPathOf_eq_replaceAll]
    exact replaceAll_ne_of_occurrence _ _ p hne hlen hocc

/-- Witness for C4: a path containing its extension maps to a distinct
output path. -/
theorem c4_witness :
    (".xml".data <:+: "uploads/f.xml".data) ∧
    outputPathOf FileFormat.xml "uploads/f.xml".data ≠ "uploads/f.xml".data := by
  refine ⟨by decide, ?_⟩
  exact (c4_output_paths FileFormat.xml "uploads/f.xml".data).2 (by decide)

/-- Claim C5: the dispatcher lower-cases the extension extracted by
`os.path.splitext` and runs exactly the replacer registered for `.pdf`,
`.csv`, `.xml`, `.xpt`; for every other extension it rejects with an error
message naming that extension, the saved input file is removed, and no
replacer runs (so no output file is produced). -/
theorem c5_dispatch (filename : List Char) :
    (dispatchByExtension filename = .run .pdf ↔ lowerExt filename = ".pdf".data) ∧
    (dispatchByExtension filename = .run .csv ↔ lowerExt filename = ".csv".data) ∧
    (dispatchByExtension filename = .run .xml ↔ lowerExt filename = ".xml".data) ∧
    (dispatchByExtension filename = .run .xpt ↔ lowerExt filename = ".xpt".data) ∧
    (lowerExt filename ∉ [".pdf".data, ".csv".data, ".xml".data, ".xpt".data] →
      dispatchByExtension filename =
        .rejected ("Unsupported file type: ".data ++ lowerExt filename) true) := by
  by_cases h1 : lowerExt filename = ".pdf".data
  · have hd : dispatchByExtension filename = .run .pdf := by
      simp only [dispatchByExtension]
      rw [if_pos h1]
    refine ⟨iff_of_true hd h1, ?_, ?_, ?_, ?_⟩
    · exact iff_of_false (fun h => absurd (hd.symm.trans h) (by decide))
        (fun h => absurd (h1.symm.trans h) (by decide))
    · exact iff_of_false (fun h => absurd (hd.symm.trans h) (by decide))
        (fun h => absurd (h1.symm.trans h) (by decide))
    · exact iff_of_false (fun h => absurd (hd.symm.trans h) (by decide))
        (fun h => absurd (h1.symm.trans h) (by decide))
    · intro hn
      exact absurd (by rw [h1]; decide) hn
  · by_cases h2 : lowerExt filename = ".csv".data
    · have hd : dispatchByExtension filename = .run .csv := by
        simp only [dispatchByExtension]
        rw [if_neg h1, if_pos h2]
      refine ⟨?_, iff_of_true hd h2, ?_, ?_, ?_⟩
      · exact iff_of_false (fun h => absurd (hd.symm.trans h) (by decide)) h1
      · exact iff_of_false (fun h => absurd (hd.symm.trans h) (by decide))
          (fun h => absurd (h2.symm.trans h) (by decide))
      · exact iff_of_false (fun h => absurd (hd.symm.trans h) (by decide))
          (fun h => absurd (h2.symm.trans h) (by decide))
      · intro hn
        exact absurd (by rw [h2]; decide) hn
    · by_cases h3 : lowerExt filename = ".xml".data
      · have hd : dispatchByExtension filename = .run .xml := by
          simp only [dispatchByExtension]
          rw [if_neg h1, if_neg h2, if_pos h3]
        refine ⟨?_, ?_, iff_of_true hd h3, ?_, ?_⟩
        · exact iff_of_false (fun h => absurd (hd.symm.trans h) (by decide)) h1
        · exact iff_of_false (fun h => absurd (hd.symm.trans h) (by decide)) h2
        · exact iff_of_false (fun h => absurd (hd.symm.trans h) (by decide))
            (fun h => absurd (h3.symm.trans h) (by decide))
        · intro hn
          exact absurd (by rw [h3]; decide) hn
      · by_cases h4 : lowerExt filename = ".xpt".data
        · have hd : dispatchByExtension filename = .run .xpt := by
            simp only [dispatchByExtension]
            rw [if_neg h1, if_neg h2, if_neg h3, if_pos h4]
          refine ⟨?_, ?_, ?_, iff_of_true hd h4, ?_⟩
          · exact iff_of_false (fun h => absurd (hd.symm.trans h) (by decide)) h1
          · exact iff_of_false (fun h => absurd (hd.symm.trans h) (by decide)) h2
          · exact iff_of_false (fun h => absurd (hd.symm.trans h) (by decide)) h3
          · intro hn
            exact absurd (by rw [h4]; decide) hn
        · have hd : dispatchByExtension filename =
              .rejected ("Unsupported file type: ".data ++ lowerExt filename) true := by
            simp only [dispatchByExtension]
            rw [if_neg h1, if_neg h2, if_neg h3, if_neg h4]
          refine ⟨?_, ?_, ?_, ?_, fun _ => hd⟩
          · exact iff_of_false
              (fun h => DispatchResult.noConfusion (hd.symm.trans h)) h1
          · exact iff_of_false
              (fun h => DispatchResult.noConfusion (hd.symm.trans h)) h2
          · exact iff_of_false
              (fun h => DispatchResult.noConfusion (hd.symm.trans h)) h3
          · exact iff_of_false
              (fun h => DispatchResult.noConfusion (hd.symm.trans h)) h4

/-- Witness for C5: `report.docx` is rejected with a message naming
`.docx`, with the saved input removed and no replacer run. -/
theorem c5_witness :
    (lowerExt "report.docx".data ∉
      [".pdf".data, ".csv".data, ".xml".data, ".xpt".data]) ∧
    dispatchByExtension "report.docx".data =
      .rejected ("Unsupported file type: ".data ++ lowerExt "report.docx".data) true := by
  refine ⟨by decide, ?_⟩
  exact (c5_dispatch "report.docx".data).2.2.2.2 (by decide)

/-- Claim C6: a CSV cell exactly equal to the search text becomes exactly
the replacement text, and a cell containing it as a substring splits into
occurrence-free segments separated by the search text, with the output the
same segments separated by the replacement text (only the occurrences are
replaced, all other characters preserved in order). -/
theorem c6_csv_cell_replacement (old new : List Char) (h : old ≠ []) :
    cellReplace old new (Cell.str old) = Cell.str new ∧
    ∀ s : List Char, ∃ segs : List (List Char), segs ≠ [] ∧
      (∀ seg ∈ segs, ¬ old <:+: seg) ∧
      s = joinSep old segs ∧
      cellReplace old new (Cell.str s) = Cell.str (joinSep new segs) := by
  constructor
  · simp only [cellReplace, replaceAll_self old new h]
  · intro s
    obtain ⟨segs, h1, h2, h3, h4⟩ := replaceAll_decomp old new h s
    exact ⟨segs, h1, h2, h3, by simp only [cellReplace, h4]⟩

/-- Witness for C6: the spec's end-to-end example, `Bob` → `Carol`. -/
theorem c6_witness :
    "Bob".data ≠ [] ∧
    cellReplace "Bob".data "Carol".data (Cell.str "Bob".data) =
      Cell.str "Carol".data := by
  refine ⟨by decide, ?_⟩
  exact (c6_csv_cell_replacement "Bob".data "Carol".data (by decide)).1

/-- Claim C7: the XML replacer, which visits each element before its
children in document order, equals the spec-side transform that replaces
all occurrences in each element's text, tail and attribute values and
recurses into children; tag names never change (the preorder tag list is
preserved), and a value not containing the search text is unchanged. -/
theorem c7_xml_replacer (old new : List Char) (h : old ≠ []) (e : XmlElem) :
    replace_in_element old new e = xmlSpecReplaceElem old new e ∧
    tagsElem (replace_in_element old new e) = tagsElem e ∧
    (∀ v : List Char, ¬ old <:+: v → replaceAll old new v = v) :=
  ⟨replace_in_element_eq_spec old new e, tagsElem_replace old new e,
   fun v hv => replaceAll_no_occurrence old new v hv⟩

/-- Witness for C7 at a concrete two-level element. -/
theorem c7_witness :
    "Bob".data ≠ [] ∧
    replace_in_element "Bob".data "Carol".data
      (XmlElem.mk "root".data [("id".data, "Bob".data)]
        (some "call Bob".data) none
        (XmlForest.cons (XmlElem.mk "child".data [] none none XmlForest.nil)
          XmlForest.nil)) =
    xmlSpecReplaceElem "Bob".data "Carol".data
      (XmlElem.mk "root".data [("id".data, "Bob".data)]
        (some "call Bob".data) none
        (XmlForest.cons (XmlElem.mk "child".data [] none none XmlForest.nil)
          XmlForest.nil)) :=
  ⟨by decide, (c7_xml_replacer "Bob".data "Carol".data (by decide)
    (XmlElem.mk "root".data [("id".data, "Bob".data)]
      (some "call Bob".data) none
      (XmlForest.cons (XmlElem.mk "child".data [] none none XmlForest.nil)
        XmlForest.nil))).1⟩

/-- Claim C8: on a page with matches, every inserted replacement uses the
same font size, namely the size of the first span in block/line/span order
of the pre-redaction snapshot whose text contains the search string, and
12pt when no span on the page contains it. -/
theorem c8_pdf_fontsize (old : List Char) (blocks : List (List (List Span)))
    (rects : List Rect) :
    insertionFontsizes old blocks rects =
      rects.map (fun _ => specFirstSize old blocks) ∧
    ((∀ sp ∈ blocks.flatten.flatten, ¬ old <:+: sp.text) →
      insertionFontsizes old blocks rects = rects.map (fun _ => (12 : Rat))) := by
  constructor
  · unfold insertionFontsizes
    simp only [originalFontsize_eq_spec]
  · intro hno
    unfold insertionFontsizes
    have h12 : originalFontsize old blocks = 12 := by
      unfold originalFontsize
      rw [findSpanInBlocks_eq_find]
      have hfn : blocks.flatten.flatten.find?
          (fun sp => decide (old <:+: sp.text)) = none := by
        rw [List.find?_eq_none]
        intro sp hsp
        simp only [decide_eq_true_eq]
        exact hno sp hsp
      rw [hfn]
    simp only [h12]

/-- Witness for C8: a page whose only span does not contain the search
string yields 12pt for the single match rectangle. -/
theorem c8_witness :
    (∀ sp ∈ ([[[Span.mk "hello".data 9]]] :
        List (List (List Span))).flatten.flatten, ¬ "zz".data <:+: sp.text) ∧
    insertionFontsizes "zz".data [[[Span.mk "hello".data 9]]]
      [Rect.mk 0 0 1 1] = [Rect.mk 0 0 1 1].map (fun _ => (12 : Rat)) := by
  refine ⟨by decide, ?_⟩
  exact (c8_pdf_fontsize "zz".data [[[Span.mk "hello".data 9]]]
    [Rect.mk 0 0 1 1]).2 (by decide)

/-- Claim C9: for a CSV, XML or tabular-export document whose content
survives a bare re-serialization unchanged (round-trips losslessly), if the
search text occurs nowhere in the document then the replacement is the
identity on the document's content. -/
theorem c9_no_occurrence_roundtrip (old new : List Char) (h : old ≠ [])
    (doc : Document) (hrt : writeNormalize doc = doc)
    (hno : occursInDocument old doc = false) :
    processDocument old new doc = doc := by
  cases doc with
  | csv d =>
    simp only [occursInDocument, csvOccurs, Bool.or_eq_false_iff] at hno
    simp only [processDocument, Document.csv.injEq]
    cases d with
    | mk header rows =>
      simp only [replace_text_in_csv, CsvDoc.mk.injEq, true_and]
      exact rows_replace_of_not_occurs old new rows hno.2
  | xml root =>
    simp only [occursInDocument] at hno
    simp only [processDocument, Document.xml.injEq]
    exact elem_replace_of_not_occurs old new root hno
  | xpt d =>
    simp only [occursInDocument, xptOccurs, Bool.or_eq_false_iff] at hno
    simp only [writeNormalize, Document.xpt.injEq] at hrt
    simp only [processDocument, Document.xpt.injEq]
    unfold replace_text_in_xpt
    rw [rows_replace_of_not_occurs old new d.rows hno.2]
    exact hrt

/-- Witness for C9: a concrete CSV document without the search text is
unchanged. -/
theorem c9_witness :
    writeNormalize (Document.csv (CsvDoc.mk ["name".data]
      [[Cell.str "Alice".data]])) =
      Document.csv (CsvDoc.mk ["name".data] [[Cell.str "Alice".data]]) ∧
    occursInDocument "Bob".data (Document.csv (CsvDoc.mk ["name".data]
      [[Cell.str "Alice".data]])) = false ∧
    processDocument "Bob".data "Carol".data
      (Document.csv (CsvDoc.mk ["name".data] [[Cell.str "Alice".data]])) =
      Document.csv (CsvDoc.mk ["name".data] [[Cell.str "Alice".data]]) := by
  refine ⟨rfl, by decide, ?_⟩
  exact c9_no_occurrence_roundtrip "Bob".data "Carol".data (by decide)
    (Document.csv (CsvDoc.mk ["name".data] [[Cell.str "Alice".data]]))
    rfl (by decide)

/-- Claim C10: the upload boundary strips leading and trailing whitespace
from both text fields before any replacer runs; a whitespace-only search
text strips to empty and is rejected as missing, and any accepted pair of
texts has no leading or trailing whitespace. -/
theorem c10_upload_strip (oldRaw newRaw : List Char) :
    ((∀ c ∈ oldRaw, isPySpace c = true) →
      uploadTexts oldRaw newRaw = .rejected "Text to find is required".data) ∧
    (∀ o n, uploadTexts oldRaw newRaw = .accepted o n →
      o = pyStrip oldRaw ∧ n = pyStrip newRaw ∧ o ≠ [] ∧
      (∀ c, o.head? = some c → isPySpace c = false) ∧
      (∀ c, o.getLast? = some c → isPySpace c = false) ∧
      (∀ c, n.head? = some c → isPySpace c = false) ∧
      (∀ c, n.getLast? = some c → isPySpace c = false)) := by
  constructor
  · intro hall
    simp only [uploadTexts]
    rw [if_pos (pyStrip_of_all_space oldRaw hall)]
  · intro o n h
    simp only [uploadTexts] at h
    by_cases hc : pyStrip oldRaw = []
    · rw [if_pos hc] at h
      exact UploadCheck.noConfusion h
    · rw [if_neg hc] at h
      injection h with h1 h2
      subst h1
      subst h2
      refine ⟨rfl, rfl, hc, ?_, ?_, ?_, ?_⟩
      · exact fun c hch => pyStrip_head_not_space oldRaw c hch
      · exact fun c hcl => pyStrip_getLast_not_space oldRaw c hcl
      · exact fun c hch => pyStrip_head_not_space newRaw c hch
      · exact fun c hcl => pyStrip_getLast_not_space newRaw c hcl

/-- Witness for C10: a whitespace-only search text is rejected. -/
theorem c10_witness :
    (∀ c ∈ " \t ".data, isPySpace c = true) ∧
    uploadTexts " \t ".data "x".data =
      UploadCheck.rejected "Text to find is required".data := by
  refine ⟨by decide, ?_⟩
  exact (c10_upload_strip " \t ".data "x".data).1 (by decide)

end App

